import Mathlib

/-!
Verification development for the pilot configuration-synchronization core.

The Go sources embedded here:
* `adapter/config/memory/monitor.go` — the polling diff monitor
  (`compareToCache`, `UpdateConfigRecord`, `normalize`, the `run` loop);
* `model/validation.go` — the configuration validators;
* `adapter/config/ingress/controller.go` — the read-only ingress store.

Modelling conventions:
* Go `string` keys stay `String`; Go byte-lexicographic `<` on strings is
  embedded as the executable `goStrLt` (UTF-8 byte order and unicode
  code-point order agree, and all identifiers involved are ASCII anyway).
* Machine integers (`int`, `int32`, `int64`) are embedded as `Int`; `float32`
  percent fields are embedded as `Rat`.
* `error` results are `Option String` (single error) or `List String`
  (a `hashicorp/go-multierror` aggregate, `nil` = `[]`); `multierror.Append`
  flattens nested multierrors, so it is list append.
* The opaque `proto.Message` payload carried by a config record is a type
  parameter `α` with decidable equality (`reflect.DeepEqual`).
-/

namespace Pilot

/-! ## Go string order

`lexLt` is lexicographic strict order on character lists; `goStrLt` embeds
Go's `<` on strings. -/

def lexLt : List Char → List Char → Bool
  | [], [] => false
  | [], _ :: _ => true
  | _ :: _, [] => false
  | a :: as, b :: bs => if a < b then true else if b < a then false else lexLt as bs

def goStrLt (a b : String) : Bool :=
  lexLt a.toList b.toList

theorem lexLt_irrefl (l : List Char) : lexLt l l = false := by
  induction l with
  | nil => rfl
  | cons a as ih => simp [lexLt, ih]

theorem lexLt_asymm {a b : List Char} (h : lexLt a b = true) : lexLt b a = false := by
  induction a generalizing b with
  | nil =>
    cases b with
    | nil => simp [lexLt] at h
    | cons y ys => simp [lexLt]
  | cons x xs ih =>
    cases b with
    | nil => simp [lexLt] at h
    | cons y ys =>
      by_cases hxy : x < y
      · simp [lexLt, hxy, asymm hxy, ne_of_gt hxy]
      · by_cases hyx : y < x
        · simp [lexLt, hxy, hyx] at h
        · have : x = y := le_antisymm (not_lt.mp hyx) (not_lt.mp hxy)
          subst this
          simp [lexLt, lt_irrefl] at h ⊢
          exact ih h

theorem lexLt_trans {a b c : List Char} (hab : lexLt a b = true) (hbc : lexLt b c = true) :
    lexLt a c = true := by
  induction a generalizing b c with
  | nil =>
    cases b with
    | nil => simp [lexLt] at hab
    | cons y ys =>
      cases c with
      | nil => simp [lexLt] at hbc
      | cons z zs => simp [lexLt]
  | cons x xs ih =>
    cases b with
    | nil => simp [lexLt] at hab
    | cons y ys =>
      cases c with
      | nil => simp [lexLt] at hbc
      | cons z zs =>
        by_cases hxy : x < y <;> by_cases hyz : y < z
        · simp [lexLt, lt_trans hxy hyz]
        · have hyz' : y = z := by
            by_cases h : z < y
            · simp [lexLt, hyz, h] at hbc
            · exact le_antisymm (not_lt.mp h) (not_lt.mp hyz)
          subst hyz'
          simp [lexLt, hxy]
        · have hxy' : x = y := by
            by_cases h : y < x
            · simp [lexLt, hxy, h] at hab
            · exact le_antisymm (not_lt.mp h) (not_lt.mp hxy)
          subst hxy'
          simp [lexLt, hyz]
        · have hxy' : x = y := by
            by_cases h : y < x
            · simp [lexLt, hxy, h] at hab
            · exact le_antisymm (not_lt.mp h) (not_lt.mp hxy)
          have hyz' : y = z := by
            by_cases h : z < y
            · simp [lexLt, hyz, h] at hbc
            · exact le_antisymm (not_lt.mp h) (not_lt.mp hyz)
          subst hxy'; subst hyz'
          simp [lexLt, lt_irrefl] at hab hbc ⊢
          exact ih hab hbc

theorem lexLt_total_of_ne {a b : List Char} (h : a ≠ b) :
    lexLt a b = true ∨ lexLt b a = true := by
  induction a generalizing b with
  | nil =>
    cases b with
    | nil => exact absurd rfl h
    | cons y ys => left; simp [lexLt]
  | cons x xs ih =>
    cases b with
    | nil => right; simp [lexLt]
    | cons y ys =>
      by_cases hxy : x < y
      · left; simp [lexLt, hxy]
      · by_cases hyx : y < x
        · right; simp [lexLt, hyx, asymm hyx]
        · have hx : x = y := le_antisymm (not_lt.mp hyx) (not_lt.mp hxy)
          subst hx
          have hxs : xs ≠ ys := by intro hh; exact h (by rw [hh])
          rcases ih hxs with h1 | h1
          · left; simp [lexLt, lt_irrefl, h1]
          · right; simp [lexLt, lt_irrefl, h1]

theorem goStrLt_irrefl (s : String) : goStrLt s s = false :=
  lexLt_irrefl _

theorem goStrLt_asymm {s t : String} (h : goStrLt s t = true) : goStrLt t s = false :=
  lexLt_asymm h

theorem goStrLt_trans {s t u : String} (h1 : goStrLt s t = true) (h2 : goStrLt t u = true) :
    goStrLt s u = true :=
  lexLt_trans h1 h2

theorem goStrLt_total_of_ne {s t : String} (h : s ≠ t) :
    goStrLt s t = true ∨ goStrLt t s = true := by
  unfold goStrLt
  refine lexLt_total_of_ne fun hd => h ?_
  cases s with
  | mk d1 =>
    cases t with
    | mk d2 =>
      simp only [String.toList] at hd
      exact congrArg String.mk hd

theorem goStrLt_ne {s t : String} (h : goStrLt s t = true) : s ≠ t := by
  intro he
  subst he
  rw [goStrLt_irrefl] at h
  cases h

/-! ## Data model

`model.Config` (spec §3): one configuration record `{type, key, revision,
payload}`; the payload (`Content`, a `proto.Message`) is the opaque
parameter `α`.  `model.Event` is the Add/Update/Delete event tag. -/

structure Config (α : Type) where
  type : String
  key : String
  revision : String
  content : α
deriving DecidableEq, Repr

inductive Event where
  | add
  | update
  | delete
deriving DecidableEq, Repr

/-- Key-sorted with unique keys: strictly ascending keys (spec §3 Snapshot). -/
abbrev SortedKeys {α : Type} (l : List (Config α)) : Prop :=
  l.Pairwise fun a b => goStrLt a.key b.key = true

/-! ## Polling diff monitor: the compare step

Embeds `compareToCache` (monitor.go:95-122).  The Go loop walks cursors
`io`, `in` over both key-sorted slices; the `in--`/`io--` before the shared
`io++; in++` nets out to advancing only the old cursor on a delete and only
the new cursor on an add, so the loop is the structural merge below; the
two trailing drain loops (monitor.go:115-121) are the `[]` cases.
`reflect.DeepEqual` on records is decidable equality of `Config α`.
Events are `(record, tag)` pairs in the order `applyHandlers` is called. -/

def compareToCache {α : Type} [DecidableEq α] :
    List (Config α) → List (Config α) → List (Config α × Event)
  | [], [] => []
  | [], n :: ns => (n, .add) :: compareToCache [] ns
  | o :: os, [] => (o, .delete) :: compareToCache os []
  | o :: os, n :: ns =>
    if o = n then compareToCache os ns
    else if o.key = n.key then (n, .update) :: compareToCache os ns
    else if goStrLt o.key n.key then (o, .delete) :: compareToCache os (n :: ns)
    else (n, .add) :: compareToCache (o :: os) ns
termination_by o n => o.length + n.length

/-! ## Replay semantics (formalizing claim C1)

Replaying an event against a key-sorted snapshot: an Add inserts at the key
position, an Update replaces the record with the matching key, a Delete
removes the records with the matching key. -/

def insertByKey {α : Type} (c : Config α) : List (Config α) → List (Config α)
  | [] => [c]
  | x :: xs => if goStrLt c.key x.key then c :: x :: xs else x :: insertByKey c xs

def applyEvent {α : Type} (l : List (Config α)) : Config α × Event → List (Config α)
  | (c, .add) => insertByKey c l
  | (c, .update) => l.map fun x => if x.key = c.key then c else x
  | (c, .delete) => l.filter fun x => decide (x.key ≠ c.key)

def replay {α : Type} (l : List (Config α)) (evs : List (Config α × Event)) : List (Config α) :=
  evs.foldl applyEvent l

theorem compareToCache_mem {α : Type} [DecidableEq α] (old new : List (Config α)) :
    ∀ p ∈ compareToCache old new, p.1 ∈ old ∨ p.1 ∈ new := by
  induction old, new using compareToCache.induct with
  | case1 => simp [compareToCache]
  | case2 n ns ih =>
    intro p hp
    simp only [compareToCache, List.mem_cons] at hp
    rcases hp with h | h
    · subst h; simp
    · rcases ih p h with h | h
      · simp at h
      · right; simp [h]
  | case3 o os ih =>
    intro p hp
    simp only [compareToCache, List.mem_cons] at hp
    rcases hp with h | h
    · subst h; simp
    · rcases ih p h with h | h
      · left; simp [h]
      · simp at h
  | case4 os n ns ih =>
    intro p hp
    rw [compareToCache, if_pos rfl] at hp
    rcases ih p hp with h | h
    · left; simp [h]
    · right; simp [h]
  | case5 o os n ns hne hkey ih =>
    intro p hp
    rw [compareToCache, if_neg hne, if_pos hkey] at hp
    rcases List.mem_cons.mp hp with h | h
    · subst h; simp
    · rcases ih p h with h | h
      · left; simp [h]
      · right; simp [h]
  | case6 o os n ns hne hkey hlt ih =>
    intro p hp
    rw [compareToCache, if_neg hne, if_neg hkey, if_pos hlt] at hp
    rcases List.mem_cons.mp hp with h | h
    · subst h; simp
    · rcases ih p h with h | h
      · left; simp [h]
      · right; exact h
  | case7 o os n ns hne hkey hlt ih =>
    intro p hp
    rw [compareToCache, if_neg hne, if_neg hkey, if_neg hlt] at hp
    rcases List.mem_cons.mp hp with h | h
    · subst h; simp
    · rcases ih p h with h | h
      · exact Or.inl h
      · right; simp [h]

theorem applyEvent_cons_of_lt {α : Type} {c : Config α} {p : Config α × Event}
    (l : List (Config α)) (h : goStrLt c.key p.1.key = true) :
    applyEvent (c :: l) p = c :: applyEvent l p := by
  obtain ⟨q, e⟩ := p
  have hne : c.key ≠ q.key := goStrLt_ne h
  cases e with
  | add =>
    have : goStrLt q.key c.key = false := goStrLt_asymm h
    simp [applyEvent, insertByKey, this]
  | update => simp [applyEvent, hne]
  | delete => simp [applyEvent, hne]

theorem replay_cons_of_forall_lt {α : Type} {c : Config α} {l : List (Config α)}
    {evs : List (Config α × Event)} (h : ∀ p ∈ evs, goStrLt c.key p.1.key = true) :
    replay (c :: l) evs = c :: replay l evs := by
  induction evs generalizing l with
  | nil => rfl
  | cons p ps ih =>
    have h1 : goStrLt c.key p.1.key = true := h p (by simp)
    have h2 : ∀ q ∈ ps, goStrLt c.key q.1.key = true := fun q hq => h q (by simp [hq])
    simp only [replay, List.foldl_cons] at *
    rw [applyEvent_cons_of_lt l h1]
    exact ih h2

theorem filter_ne_key_of_forall_lt {α : Type} {k : String} {l : List (Config α)}
    (h : ∀ x ∈ l, goStrLt k x.key = true) :
    (l.filter fun x => decide (x.key ≠ k)) = l := by
  rw [List.filter_eq_self]
  intro x hx
  simpa using fun he => goStrLt_ne (h x hx) he.symm

theorem map_update_id_of_forall_lt {α : Type} {k : String} {c : Config α}
    {l : List (Config α)} (h : ∀ x ∈ l, goStrLt k x.key = true) :
    (l.map fun x => if x.key = k then c else x) = l := by
  induction l with
  | nil => rfl
  | cons x xs ih =>
    have hx : x.key ≠ k := fun he => goStrLt_ne (h x (by simp)) he.symm
    simp only [List.map_cons, if_neg hx]
    rw [ih fun y hy => h y (by simp [hy])]

/-- Keys occurring in the compare output of key-sorted suffixes are strictly
above a bound below both heads. -/
theorem compareToCache_keys_gt {α : Type} [DecidableEq α] {k : String}
    {old new : List (Config α)}
    (ho : ∀ x ∈ old, goStrLt k x.key = true) (hn : ∀ x ∈ new, goStrLt k x.key = true) :
    ∀ p ∈ compareToCache old new, goStrLt k p.1.key = true := by
  intro p hp
  rcases compareToCache_mem old new p hp with h | h
  · exact ho p.1 h
  · exact hn p.1 h

/-- Replaying the compare step's events against the old key-sorted snapshot
reproduces the new one. -/
theorem replay_compareToCache {α : Type} [DecidableEq α]
    (old new : List (Config α)) (ho : SortedKeys old) (hn : SortedKeys new) :
    replay old (compareToCache old new) = new := by
  induction old, new using compareToCache.induct with
  | case1 =>
    rw [compareToCache]
    rfl
  | case2 n ns ih =>
    rw [compareToCache]
    have hns : SortedKeys ns := (List.pairwise_cons.mp hn).2
    have hgt : ∀ p ∈ compareToCache ([] : List (Config α)) ns, goStrLt n.key p.1.key = true :=
      compareToCache_keys_gt (by simp) (List.pairwise_cons.mp hn).1
    simp only [replay, List.foldl_cons]
    have hadd : applyEvent ([] : List (Config α)) (n, .add) = [n] := by
      simp [applyEvent, insertByKey]
    rw [hadd]
    calc List.foldl applyEvent [n] (compareToCache ([] : List (Config α)) ns)
        = replay ([n] : List (Config α)) (compareToCache ([] : List (Config α)) ns) := rfl
      _ = n :: replay ([] : List (Config α)) (compareToCache ([] : List (Config α)) ns) :=
          replay_cons_of_forall_lt hgt
      _ = n :: ns := by rw [ih ho hns]
  | case3 o os ih =>
    rw [compareToCache]
    have hos : SortedKeys os := (List.pairwise_cons.mp ho).2
    have hhd : ∀ x ∈ os, goStrLt o.key x.key = true := (List.pairwise_cons.mp ho).1
    simp only [replay, List.foldl_cons]
    have hdel : applyEvent (o :: os) (o, .delete) = os := by
      simp only [applyEvent]
      rw [List.filter_cons_of_neg (by simp)]
      exact filter_ne_key_of_forall_lt hhd
    rw [hdel]
    exact ih hos hn
  | case4 os n ns ih =>
    rw [compareToCache, if_pos rfl]
    have hos : SortedKeys os := (List.pairwise_cons.mp ho).2
    have hns : SortedKeys ns := (List.pairwise_cons.mp hn).2
    have hgt : ∀ p ∈ compareToCache os ns, goStrLt n.key p.1.key = true :=
      compareToCache_keys_gt (List.pairwise_cons.mp ho).1 (List.pairwise_cons.mp hn).1
    calc replay (n :: os) (compareToCache os ns)
        = n :: replay os (compareToCache os ns) := replay_cons_of_forall_lt hgt
      _ = n :: ns := by rw [ih hos hns]
  | case5 o os n ns hne hkey ih =>
    rw [compareToCache, if_neg hne, if_pos hkey]
    have hos : SortedKeys os := (List.pairwise_cons.mp ho).2
    have hns : SortedKeys ns := (List.pairwise_cons.mp hn).2
    have hhdo : ∀ x ∈ os, goStrLt o.key x.key = true := (List.pairwise_cons.mp ho).1
    have hhdn : ∀ x ∈ ns, goStrLt n.key x.key = true := (List.pairwise_cons.mp hn).1
    have hhdo' : ∀ x ∈ os, goStrLt n.key x.key = true := by rw [← hkey]; exact hhdo
    have hgt : ∀ p ∈ compareToCache os ns, goStrLt n.key p.1.key = true :=
      compareToCache_keys_gt hhdo' hhdn
    simp only [replay, List.foldl_cons]
    have hupd : applyEvent (o :: os) (n, .update) = n :: os := by
      simp only [applyEvent, List.map_cons, if_pos hkey]
      rw [map_update_id_of_forall_lt hhdo']
    rw [hupd]
    calc List.foldl applyEvent (n :: os) (compareToCache os ns)
        = replay (n :: os) (compareToCache os ns) := rfl
      _ = n :: replay os (compareToCache os ns) := replay_cons_of_forall_lt hgt
      _ = n :: ns := by rw [ih hos hns]
  | case6 o os n ns hne hkey hlt ih =>
    rw [compareToCache, if_neg hne, if_neg hkey, if_pos hlt]
    have hos : SortedKeys os := (List.pairwise_cons.mp ho).2
    have hhdo : ∀ x ∈ os, goStrLt o.key x.key = true := (List.pairwise_cons.mp ho).1
    simp only [replay, List.foldl_cons]
    have hdel : applyEvent (o :: os) (o, .delete) = os := by
      simp only [applyEvent]
      rw [List.filter_cons_of_neg (by simp)]
      exact filter_ne_key_of_forall_lt hhdo
    rw [hdel]
    exact ih hos hn
  | case7 o os n ns hne hkey hlt ih =>
    rw [compareToCache, if_neg hne, if_neg hkey, if_neg hlt]
    have hns : SortedKeys ns := (List.pairwise_cons.mp hn).2
    have hnlt : goStrLt n.key o.key = true := by
      rcases goStrLt_total_of_ne (fun he => hkey he.symm) with h | h
      · exact h
      · exact absurd h hlt
    have hhdo : ∀ x ∈ os, goStrLt o.key x.key = true := (List.pairwise_cons.mp ho).1
    have hhdn : ∀ x ∈ ns, goStrLt n.key x.key = true := (List.pairwise_cons.mp hn).1
    have hall : ∀ x ∈ o :: os, goStrLt n.key x.key = true := by
      intro x hx
      rcases List.mem_cons.mp hx with h | h
      · subst h; exact hnlt
      · exact goStrLt_trans hnlt (hhdo x h)
    have hgt : ∀ p ∈ compareToCache (o :: os) ns, goStrLt n.key p.1.key = true :=
      compareToCache_keys_gt hall hhdn
    simp only [replay, List.foldl_cons]
    have hadd : applyEvent (o :: os) (n, .add) = n :: o :: os := by
      simp [applyEvent, insertByKey, hnlt]
    rw [hadd]
    calc List.foldl applyEvent (n :: o :: os) (compareToCache (o :: os) ns)
        = replay (n :: o :: os) (compareToCache (o :: os) ns) := rfl
      _ = n :: replay (o :: os) (compareToCache (o :: os) ns) := replay_cons_of_forall_lt hgt
      _ = n :: ns := by rw [ih ho hns]

/-- A record present and unchanged in both key-sorted snapshots produces no
event for its key. -/
theorem compareToCache_no_event_unchanged {α : Type} [DecidableEq α]
    (old new : List (Config α)) (ho : SortedKeys old) (hn : SortedKeys new)
    (c : Config α) (hco : c ∈ old) (hcn : c ∈ new) :
    ∀ p ∈ compareToCache old new, p.1.key ≠ c.key := by
  induction old, new using compareToCache.induct with
  | case1 => simp [compareToCache]
  | case2 n ns ih => simp at hco
  | case3 o os ih => simp at hcn
  | case4 os n ns ih =>
    intro p hp
    rw [compareToCache, if_pos rfl] at hp
    have hos : SortedKeys os := (List.pairwise_cons.mp ho).2
    have hns : SortedKeys ns := (List.pairwise_cons.mp hn).2
    have hgt : goStrLt n.key p.1.key = true :=
      compareToCache_keys_gt (List.pairwise_cons.mp ho).1 (List.pairwise_cons.mp hn).1 p hp
    rcases List.mem_cons.mp hco with hc | hc
    · subst hc
      exact fun he => goStrLt_ne hgt he.symm
    · rcases List.mem_cons.mp hcn with hc' | hc'
      · subst hc'
        exact fun he => goStrLt_ne hgt he.symm
      · exact ih hos hns hc hc' p hp
  | case5 o os n ns hne hkey ih =>
    intro p hp
    rw [compareToCache, if_neg hne, if_pos hkey] at hp
    have hos : SortedKeys os := (List.pairwise_cons.mp ho).2
    have hns : SortedKeys ns := (List.pairwise_cons.mp hn).2
    have hhdo : ∀ x ∈ os, goStrLt o.key x.key = true := (List.pairwise_cons.mp ho).1
    have hhdn : ∀ x ∈ ns, goStrLt n.key x.key = true := (List.pairwise_cons.mp hn).1
    have hc : c ∈ os := by
      rcases List.mem_cons.mp hco with h | h
      · subst h
        rcases List.mem_cons.mp hcn with h' | h'
        · exact absurd h' hne
        · have := hhdn c h'
          rw [← hkey] at this
          rw [goStrLt_irrefl] at this
          cases this
      · exact h
    have hc' : c ∈ ns := by
      rcases List.mem_cons.mp hcn with h' | h'
      · subst h'
        have := hhdo c hc
        rw [hkey] at this
        rw [goStrLt_irrefl] at this
        cases this
      · exact h'
    rcases List.mem_cons.mp hp with h | h
    · subst h
      have := hhdn c hc'
      exact fun he => goStrLt_ne this he
    · exact ih hos hns hc hc' p h
  | case6 o os n ns hne hkey hlt ih =>
    intro p hp
    rw [compareToCache, if_neg hne, if_neg hkey, if_pos hlt] at hp
    have hos : SortedKeys os := (List.pairwise_cons.mp ho).2
    have hhdo : ∀ x ∈ os, goStrLt o.key x.key = true := (List.pairwise_cons.mp ho).1
    have hhdn : ∀ x ∈ ns, goStrLt n.key x.key = true := (List.pairwise_cons.mp hn).1
    have hc : c ∈ os := by
      rcases List.mem_cons.mp hco with h | h
      · subst h
        rcases List.mem_cons.mp hcn with h' | h'
        · exact absurd (congrArg Config.key h') hkey
        · have h1 := hhdn c h'
          have := goStrLt_trans hlt h1
          exact absurd rfl (goStrLt_ne this)
      · exact h
    rcases List.mem_cons.mp hp with h | h
    · subst h
      have := hhdo c hc
      exact fun he => goStrLt_ne this he
    · exact ih hos hn hc hcn p h
  | case7 o os n ns hne hkey hlt ih =>
    intro p hp
    rw [compareToCache, if_neg hne, if_neg hkey, if_neg hlt] at hp
    have hns : SortedKeys ns := (List.pairwise_cons.mp hn).2
    have hnlt : goStrLt n.key o.key = true := by
      rcases goStrLt_total_of_ne (fun he => hkey he.symm) with h | h
      · exact h
      · exact absurd h hlt
    have hhdo : ∀ x ∈ os, goStrLt o.key x.key = true := (List.pairwise_cons.mp ho).1
    have hhdn : ∀ x ∈ ns, goStrLt n.key x.key = true := (List.pairwise_cons.mp hn).1
    have hc' : c ∈ ns := by
      rcases List.mem_cons.mp hcn with h' | h'
      · subst h'
        rcases List.mem_cons.mp hco with h | h
        · exact absurd h.symm hne
        · have h1 := hhdo c h
          have := goStrLt_trans hnlt h1
          exact absurd rfl (goStrLt_ne this)
      · exact h'
    rcases List.mem_cons.mp hp with h | h
    · subst h
      have := hhdn c hc'
      exact fun he => goStrLt_ne this he
    · exact ih ho hns hco hc' p h

/-! ## Polling diff monitor: cache and update cycle

`configCachedRecord` (a Go `map[string]Configs`) is an association list;
a read of an absent key yields the zero value (empty list), as in Go. -/

abbrev Cache (α : Type) := List (String × List (Config α))

def lookupCache {α : Type} : Cache α → String → List (Config α)
  | [], _ => []
  | p :: rest, t => if p.1 = t then p.2 else lookupCache rest t

def setCache {α : Type} : Cache α → String → List (Config α) → Cache α
  | [], t, v => [(t, v)]
  | p :: rest, t, v => if p.1 = t then (t, v) :: rest else p :: setCache rest t v

/-- Embeds `normalize` (monitor.go:134-136): `sort.Slice` with
`less = Key <`.  The unstable library sort is modelled by insertion sort;
both produce a key-ascending arrangement, and `sort.Slice` leaves the
relative order of equal keys unspecified anyway. -/
def insertSortedByKey {α : Type} (c : Config α) : List (Config α) → List (Config α)
  | [] => [c]
  | x :: xs => if goStrLt x.key c.key then x :: insertSortedByKey c xs else c :: x :: xs

def normalize {α : Type} : List (Config α) → List (Config α)
  | [] => []
  | c :: cs => insertSortedByKey c (normalize cs)

/-- Embeds the cache initialization of `NewConfigsMonitor` (monitor.go:48-63):
every registered type name starts mapped to an empty record list. -/
def NewConfigsMonitorCache {α : Type} (types : List String) : Cache α :=
  types.map fun t => (t, [])

/-- Embeds `UpdateConfigRecord` (monitor.go:81-93), iterating over the
registered type names (`model.IstioConfigTypes`, passed here as the list
`types`); `store` is the backing store's `List` call.  On a list error the
Go code logs a warning and does `return` — aborting the whole tick, not
just this kind.  On success it normalizes, emits the compare step's events
(tagged with the type, in dispatch order) and then overwrites the cache
entry.  Returns the final cache and all dispatched events. -/
def UpdateConfigRecord {α : Type} [DecidableEq α]
    (store : String → Except String (List (Config α))) :
    List String → Cache α → Cache α × List (String × Config α × Event)
  | [], cache => (cache, [])
  | t :: ts, cache =>
    match store t with
    | .error _ => (cache, [])
    | .ok configs =>
      let newRecord := normalize configs
      let evs := (compareToCache (lookupCache cache t) newRecord).map fun p => (t, p)
      let rest := UpdateConfigRecord store ts (setCache cache t newRecord)
      (rest.1, evs ++ rest.2)

theorem updateConfigRecord_cons_error {α : Type} [DecidableEq α]
    (store : String → Except String (List (Config α))) (k : String) (ks : List String)
    (cache : Cache α) (e : String) (hs : store k = .error e) :
    UpdateConfigRecord store (k :: ks) cache = (cache, []) := by
  rw [UpdateConfigRecord, hs]

theorem updateConfigRecord_cons_ok {α : Type} [DecidableEq α]
    (store : String → Except String (List (Config α))) (k : String) (ks : List String)
    (cache : Cache α) (configs : List (Config α)) (hs : store k = .ok configs) :
    UpdateConfigRecord store (k :: ks) cache =
      ((UpdateConfigRecord store ks (setCache cache k (normalize configs))).1,
        ((compareToCache (lookupCache cache k) (normalize configs)).map fun p => (k, p)) ++
          (UpdateConfigRecord store ks (setCache cache k (normalize configs))).2) := by
  rw [UpdateConfigRecord, hs]

/-! ## The run loop (monitor.go:65-79)

`Start` arms the ticker and enters `run`: an unconditional `for` around a
two-case `select`.  `runSelectBody` is one loop iteration: the stop case
calls `ticker.Stop()` and falls through (there is no `return` or `break`);
the ticker case calls `UpdateConfigRecord`.  Neither case exits the loop. -/

inductive RunEvent where
  | stopFired
  | tick
deriving DecidableEq, Repr

structure RunIterEffect where
  stopsTicker : Bool
  runsUpdate : Bool
  exitsLoop : Bool
deriving DecidableEq, Repr

def runSelectBody : RunEvent → RunIterEffect
  | .stopFired => ⟨true, false, false⟩
  | .tick => ⟨false, true, false⟩

/-- Whether `run`'s loop has exited within `n` iterations, for the sequence
of select outcomes `evs` (`evs i` is the case chosen at iteration `i`). -/
def runLoopExited (evs : Nat → RunEvent) : Nat → Bool
  | 0 => false
  | n + 1 => (runSelectBody (evs 0)).exitsLoop || runLoopExited (fun i => evs (i + 1)) n

/-! ## Example records for the interleaved-keys scenario (spec §8) -/

def cfgA : Config Nat := ⟨"route-rule", "a", "", 0⟩

def cfgB : Config Nat := ⟨"route-rule", "b", "", 1⟩

def cfgC : Config Nat := ⟨"route-rule", "c", "", 2⟩

/-- C1: for every pair of key-sorted, unique-key record sequences, the
compare step's event sequence is the per-key minimal edit script: replaying
the emitted events against `old` reproduces `new` exactly, no event is
emitted for a key whose record is present and unchanged in both, and for
old `[a,c]`, new `[b,c]` (`c` unchanged) it emits exactly `Delete(a)` then
`Add(b)` in that key order. -/
theorem compareToCache_minimal_edit_script {α : Type} [DecidableEq α]
    (old new : List (Config α)) (ho : SortedKeys old) (hn : SortedKeys new) :
    replay old (compareToCache old new) = new ∧
    (∀ c ∈ old, c ∈ new → ∀ p ∈ compareToCache old new, p.1.key ≠ c.key) ∧
    compareToCache [cfgA, cfgC] [cfgB, cfgC] = [(cfgA, .delete), (cfgB, .add)] := by
  refine ⟨replay_compareToCache old new ho hn,
    fun c hco hcn => compareToCache_no_event_unchanged old new ho hn c hco hcn, ?_⟩
  simp [compareToCache, cfgA, cfgB, cfgC, goStrLt, lexLt]

/-- Witness for C1 at the concrete scenario snapshots `[a,c]` and `[b,c]`. -/
theorem compareToCache_minimal_edit_script_witness :
    replay [cfgA, cfgC] (compareToCache [cfgA, cfgC] [cfgB, cfgC]) = [cfgB, cfgC] ∧
    (∀ c ∈ [cfgA, cfgC], c ∈ [cfgB, cfgC] →
      ∀ p ∈ compareToCache [cfgA, cfgC] [cfgB, cfgC], p.1.key ≠ c.key) ∧
    compareToCache [cfgA, cfgC] [cfgB, cfgC] = [(cfgA, .delete), (cfgB, .add)] :=
  compareToCache_minimal_edit_script [cfgA, cfgC] [cfgB, cfgC] (by decide) (by decide)

/-- C2 counterexample: registered kinds `["k1", "k2"]`, a store whose
`List("k1")` errors and whose `List("k2")` succeeds with one record.  The
tick returns the cache untouched with no events at all — the healthy kind
`k2` is not processed (processing `k2` alone would emit an Add event),
contradicting "the failure of one kind never blocks the others". -/
theorem updateConfigRecord_error_blocks_later_kinds :
    UpdateConfigRecord
        (fun t => if t = "k1" then .error "boom"
          else .ok [(⟨"ingress-rule", "b", "", 1⟩ : Config Nat)])
        ["k1", "k2"] (NewConfigsMonitorCache ["k1", "k2"])
      = (NewConfigsMonitorCache ["k1", "k2"], []) ∧
    (UpdateConfigRecord
        (fun t => if t = "k1" then .error "boom"
          else .ok [(⟨"ingress-rule", "b", "", 1⟩ : Config Nat)])
        ["k2"] (NewConfigsMonitorCache ["k1", "k2"])).2
      = [("k2", ⟨"ingress-rule", "b", "", 1⟩, .add)] := by
  constructor
  · rw [updateConfigRecord_cons_error _ "k1" ["k2"] _ "boom" (by simp)]
  · rw [updateConfigRecord_cons_ok _ "k2" []
      (NewConfigsMonitorCache ["k1", "k2"]) [⟨"ingress-rule", "b", "", 1⟩] (by simp)]
    simp [UpdateConfigRecord, NewConfigsMonitorCache, lookupCache, normalize,
      insertSortedByKey, compareToCache]

/-- C2 (amended): when the store's `List` call errors for a kind, that
kind's cached snapshot is left untouched and no event is emitted for it —
but the monitor aborts the remainder of the tick: the whole cache is
returned unchanged and the kinds after the failing one in registration
order are not processed until the next tick.  (Kinds earlier in the order
were already processed when the failure hit.) -/
theorem updateConfigRecord_error_aborts_tick {α : Type} [DecidableEq α]
    (store : String → Except String (List (Config α))) (t : String) (ts : List String)
    (cache : Cache α) (e : String) (h : store t = .error e) :
    UpdateConfigRecord store (t :: ts) cache = (cache, []) := by
  rw [UpdateConfigRecord, h]

/-- Witness for the amended C2 theorem at a concrete failing store. -/
theorem updateConfigRecord_error_aborts_tick_witness :
    UpdateConfigRecord (fun _ => (.error "down" : Except String (List (Config Nat))))
      ("k1" :: ["k2"]) [] = ([], []) :=
  updateConfigRecord_error_aborts_tick (fun _ => .error "down") "k1" ["k2"] [] "down" rfl

/-- C3: once the stop signal fires, the select body does disarm the ticker;
but the `run` loop never exits — monitor.go:73-74 has no `return`, so for
every select schedule and every number of iterations the loop is still
running.  The claim's "the monitor's run loop exits (terminates)" fails. -/
theorem run_loop_never_exits :
    (runSelectBody .stopFired).stopsTicker = true ∧
    ∀ (evs : Nat → RunEvent) (n : Nat), runLoopExited evs n = false := by
  refine ⟨rfl, fun evs n => ?_⟩
  induction n generalizing evs with
  | zero => rfl
  | succ n ih =>
    rw [runLoopExited, ih]
    cases evs 0 <;> rfl

/-! ## Sortedness of the normalized snapshot -/

/-- Key-ascending in the sense of `sort.Slice`'s postcondition for
`less = Key <`: no later element's key is below an earlier one's. -/
abbrev SortedLeKeys {α : Type} (l : List (Config α)) : Prop :=
  l.Pairwise fun a b => goStrLt b.key a.key = false

theorem goStrLt_false_trans {a b c : String} (hab : goStrLt b a = false)
    (hbc : goStrLt c b = false) : goStrLt c a = false := by
  cases hca : goStrLt c a with
  | false => rfl
  | true =>
    by_cases hb : b = a
    · subst hb
      rw [hbc] at hca
      cases hca
    · rcases goStrLt_total_of_ne hb with h1 | h1
      · rw [h1] at hab
        cases hab
      · have := goStrLt_trans hca h1
        rw [this] at hbc
        cases hbc

theorem mem_insertSortedByKey {α : Type} {y c : Config α} {l : List (Config α)} :
    y ∈ insertSortedByKey c l ↔ y = c ∨ y ∈ l := by
  induction l with
  | nil => simp [insertSortedByKey]
  | cons x xs ih =>
    by_cases h : goStrLt x.key c.key = true
    · simp only [insertSortedByKey, if_pos h, List.mem_cons, ih]
      tauto
    · simp only [insertSortedByKey, if_neg h, List.mem_cons]

theorem insertSortedByKey_sorted {α : Type} {c : Config α} {l : List (Config α)}
    (h : SortedLeKeys l) : SortedLeKeys (insertSortedByKey c l) := by
  induction l with
  | nil =>
    rw [insertSortedByKey]
    exact List.pairwise_cons.mpr ⟨by simp, List.Pairwise.nil⟩
  | cons x xs ih =>
    rcases List.pairwise_cons.mp h with ⟨hx, hxs⟩
    by_cases hlt : goStrLt x.key c.key = true
    · rw [insertSortedByKey, if_pos hlt]
      refine List.pairwise_cons.mpr ⟨?_, ih hxs⟩
      intro y hy
      rcases mem_insertSortedByKey.mp hy with h1 | h1
      · subst h1
        exact goStrLt_asymm hlt
      · exact hx y h1
    · rw [insertSortedByKey, if_neg hlt]
      have hxc : goStrLt x.key c.key = false := by
        cases hxx : goStrLt x.key c.key
        · rfl
        · exact absurd hxx hlt
      refine List.pairwise_cons.mpr ⟨?_, h⟩
      intro y hy
      rcases List.mem_cons.mp hy with h1 | h1
      · subst h1
        exact hxc
      · exact goStrLt_false_trans hxc (hx y h1)

theorem normalize_sorted {α : Type} (l : List (Config α)) : SortedLeKeys (normalize l) := by
  induction l with
  | nil => exact List.Pairwise.nil
  | cons c cs ih =>
    rw [normalize]
    exact insertSortedByKey_sorted ih

theorem lookupCache_setCache {α : Type} (cache : Cache α) (t u : String)
    (v : List (Config α)) :
    lookupCache (setCache cache t v) u = if u = t then v else lookupCache cache u := by
  induction cache with
  | nil =>
    by_cases h : u = t
    · subst h
      simp [setCache, lookupCache]
    · have htu : t ≠ u := fun hh => h hh.symm
      simp [setCache, lookupCache, h, htu]
  | cons p rest ih =>
    by_cases hp : p.1 = t
    · by_cases h : u = t
      · subst h
        simp [setCache, lookupCache, hp]
      · have htu : t ≠ u := fun hh => h hh.symm
        have hpu : p.1 ≠ u := by rw [hp]; exact htu
        simp [setCache, lookupCache, hp, h, htu, hpu]
    · by_cases h : u = t
      · subst h
        have hpu : p.1 ≠ u := hp
        simp [setCache, lookupCache, hp, hpu, ih]
      · simp [setCache, lookupCache, hp, h, ih]

theorem lookupCache_new {α : Type} (types : List String) (t : String) :
    lookupCache (NewConfigsMonitorCache types : Cache α) t = [] := by
  induction types with
  | nil => rfl
  | cons u us ih =>
    by_cases h : u = t
    · simp [NewConfigsMonitorCache, lookupCache, h]
    · simpa [NewConfigsMonitorCache, lookupCache, h] using ih

theorem updateConfigRecord_preserves_sorted {α : Type} [DecidableEq α]
    (store : String → Except String (List (Config α))) (kinds : List String)
    (cache : Cache α) (h : ∀ u, SortedLeKeys (lookupCache cache u)) :
    ∀ u, SortedLeKeys (lookupCache (UpdateConfigRecord store kinds cache).1 u) := by
  revert cache
  induction kinds with
  | nil =>
    intro cache h
    simpa [UpdateConfigRecord] using h
  | cons k ks ih =>
    intro cache h
    cases hs : store k with
    | error e =>
      rw [updateConfigRecord_cons_error store k ks cache e hs]
      exact h
    | ok configs =>
      rw [updateConfigRecord_cons_ok store k ks cache configs hs]
      refine ih (setCache cache k (normalize configs)) ?_
      intro w
      rw [lookupCache_setCache]
      by_cases hw : w = k
      · rw [if_pos hw]
        exact normalize_sorted configs
      · rw [if_neg hw]
        exact h w

/-- C10: the monitor's cached record sequence is always key-ascending
sorted: it starts empty for every kind at construction, it is key-sorted
under the invariant (so the compare step's `old` argument, which is exactly
the cache lookup for the kind, is key-sorted), and every update cycle
preserves the invariant because only `normalize`d snapshots are stored. -/
theorem monitor_cache_sorted_invariant {α : Type} [DecidableEq α]
    (types kinds : List String) (store : String → Except String (List (Config α)))
    (cache : Cache α) (t : String) (h : ∀ u, SortedLeKeys (lookupCache cache u)) :
    lookupCache (NewConfigsMonitorCache types) t = ([] : List (Config α)) ∧
    SortedLeKeys (lookupCache cache t) ∧
    ∀ u, SortedLeKeys (lookupCache (UpdateConfigRecord store kinds cache).1 u) :=
  ⟨lookupCache_new types t, h t, updateConfigRecord_preserves_sorted store kinds cache h⟩

/-- Witness for C10 at a concrete store returning an unsorted list. -/
theorem monitor_cache_sorted_invariant_witness :
    lookupCache (NewConfigsMonitorCache ["route-rule"]) "route-rule"
      = ([] : List (Config Nat)) ∧
    SortedLeKeys (lookupCache ([] : Cache Nat) "route-rule") ∧
    ∀ u, SortedLeKeys
      (lookupCache (UpdateConfigRecord (fun _ => .ok [cfgC, cfgA]) ["route-rule"]
        ([] : Cache Nat)).1 u) :=
  monitor_cache_sorted_invariant ["route-rule"] ["route-rule"]
    (fun _ => .ok [cfgC, cfgA]) [] "route-rule" (fun _ => List.Pairwise.nil)

/-! ## Validation (model/validation.go)

Aggregate `multierror` results are `List String` (empty list = nil error);
each `multierror.Append` site is a list append, in source order. -/

/-- Renders Go's `%q` for the plain ASCII identifiers appearing in error
messages (none of them needs escaping). -/
def goQuote (s : String) : String :=
  "\"" ++ s ++ "\""

def optErr : Option String → List String
  | none => []
  | some e => [e]

def isLowerAlnum (c : Char) : Bool :=
  ('a' ≤ c && c ≤ 'z') || ('0' ≤ c && c ≤ '9')

def isDNSLabelChar (c : Char) : Bool :=
  isLowerAlnum c || c = '-'

/-- The anchored regex `[a-z0-9]([-a-z0-9]*[a-z0-9])?` (validation.go:35)
as an executable character-list check: nonempty, first and last characters
lowercase alphanumeric, inner characters also allowing hyphens. -/
def dns1123LabelMatch (s : String) : Bool :=
  match s.toList with
  | [] => false
  | c :: cs =>
    isLowerAlnum c &&
    match cs.getLast? with
    | none => true
    | some d => isLowerAlnum d && cs.dropLast.all isDNSLabelChar

/-- Embeds `IsDNS1123Label` (validation.go:60-62).  Go's `len` counts bytes
while `String.length` counts characters; the two agree whenever the regex
can match, because the regex only admits ASCII. -/
def IsDNS1123Label (value : String) : Bool :=
  decide (value.length ≤ 63) && dns1123LabelMatch value

/-- Embeds `ValidatePort` (validation.go:65-70); Go `int` as `Int`. -/
def ValidatePort (port : Int) : Option String :=
  if 1 ≤ port ∧ port ≤ 65535 then none
  else some ("port number " ++ toString port ++ " must be in the range 1..65535")

def firstBadLabel (fqdn : String) : List String → Option String
  | [] => none
  | label :: rest =>
    if IsDNS1123Label label then firstBadLabel fqdn rest
    else some ("domain name " ++ goQuote fqdn ++ " invalid (label " ++ goQuote label ++ " invalid)")

/-- Embeds `ValidateFQDN` (validation.go:221-236); the label loop returns
the first invalid label's error. -/
def ValidateFQDN (fqdn : String) : Option String :=
  if fqdn.length > 255 then some ("domain name " ++ goQuote fqdn ++ " too long (max 255)")
  else if fqdn.length = 0 then some "empty domain name not allowed"
  else firstBadLabel fqdn (fqdn.splitOn ".")

/-- `model.Tags` is a `map[string]string`; Go map iteration order is
modelled by the list order (the validators only aggregate, so order never
affects which errors are reported). -/
abbrev Tags := List (String × String)

def isQualifiedNameChar (c : Char) : Bool :=
  c = '-' || ('A' ≤ c && c ≤ 'Z') || ('a' ≤ c && c ≤ 'z') || ('0' ≤ c && c ≤ '9') ||
    c = '_' || c = '.' || c = '/'

/-- The anchored regex `[-A-Za-z0-9_./]*` (validation.go:38). -/
def tagRegexpMatch (s : String) : Bool :=
  s.toList.all isQualifiedNameChar

/-- Embeds `Tags.Validate` (validation.go:207-218). -/
def TagsValidate (t : Tags) : List String :=
  t.flatMap fun kv =>
    (if tagRegexpMatch kv.1 then [] else ["invalid tag key: " ++ goQuote kv.1]) ++
    (if tagRegexpMatch kv.2 then [] else ["invalid tag value: " ++ goQuote kv.2])

/-- A `proxyconfig.StringMatch` oneof; `none` is an unset oneof. -/
inductive StringMatchType where
  | exactMatch (s : String)
  | prefixMatch (s : String)
  | regexMatch (s : String)
deriving DecidableEq, Repr

structure StringMatch where
  matchType : Option StringMatchType
deriving DecidableEq, Repr

/-- Embeds `ValidateStringMatch` (validation.go:305-312): any of the three
oneof variants passes, an unset oneof hits the default error case (whose
`%q` of the whole struct is abbreviated here). -/
def ValidateStringMatch (m : StringMatch) : Option String :=
  match m.matchType with
  | some _ => none
  | none => some "unrecognized string match"

/-- Embeds `ValidateHTTPHeaderName` (validation.go:297-302). -/
def ValidateHTTPHeaderName (name : String) : Option String :=
  if name.toLower = name then none else some "must be in lower case"

structure L4MatchAttributes where
  sourceSubnet : List String
  destinationSubnet : List String
deriving DecidableEq, Repr

/-- Embeds `ValidateCIDRBlock` (validation.go:461-467); `strconv.Atoi` is
modelled by `String.toInt?`. -/
def ValidateCIDRBlock (cidr : String) : Option String :=
  match cidr.toInt? with
  | none => some ("/" ++ cidr ++ " is not a valid CIDR block")
  | some bits =>
    if bits ≤ 0 ∨ bits > 32 then some ("/" ++ cidr ++ " is not a valid CIDR block") else none

/-- Embeds `ValidateIPv4Address` (validation.go:470-483); the Go octet loop
returns on the first bad octet, with the same message in every case, so it
is an all-octets check. -/
def ValidateIPv4Address (addr : String) : Option String :=
  let octets := addr.splitOn "."
  if octets.length ≠ 4 then some (goQuote addr ++ " is not a valid IP address")
  else if octets.all fun o =>
      match o.toInt? with
      | none => false
      | some n => decide (0 ≤ n) && decide (n ≤ 255)
    then none
  else some (goQuote addr ++ " is not a valid IP address")

/-- Embeds `ValidateIPv4Subnet` (validation.go:437-458): more than one `/`
is a single CIDR-notation error; otherwise the optional CIDR-block error
and the address error aggregate. -/
def ValidateIPv4Subnet (subnet : String) : List String :=
  match subnet.splitOn "/" with
  | [addr] => optErr (ValidateIPv4Address addr)
  | [addr, cidr] => optErr (ValidateCIDRBlock cidr) ++ optErr (ValidateIPv4Address addr)
  | _ => [goQuote subnet ++ " is not valid CIDR notation"]

/-- Embeds `ValidateSubnet` (validation.go:431-434). -/
def ValidateSubnet (subnet : String) : List String :=
  ValidateIPv4Subnet subnet

/-- Embeds `ValidateL4MatchAttributes` (validation.go:315-329). -/
def ValidateL4MatchAttributes (ma : L4MatchAttributes) : List String :=
  ma.sourceSubnet.flatMap ValidateSubnet ++ ma.destinationSubnet.flatMap ValidateSubnet

/-- The `uri` special header name (`model.HeaderURI`; the constant lives in
the model package outside src/). -/
def HeaderURI : String := "uri"

structure MatchCondition where
  source : String
  sourceTags : Tags
  tcp : Option L4MatchAttributes
  udp : Option L4MatchAttributes
  httpHeaders : List (String × StringMatch)
deriving DecidableEq, Repr

/-- Renders `multierror.Prefix` for a single wrapped error: Go formats it
with `"%s %s"` of prefix and message. -/
def prefixErr (p m : String) : String :=
  p ++ " " ++ m

/-- The special `uri`-header checks inside `ValidateMatchCondition`
(validation.go:271-288). -/
def uriHeaderErrs (value : StringMatch) : List String :=
  match value.matchType with
  | some (.exactMatch s) =>
    if s = "" then ["exact header value for " ++ goQuote HeaderURI ++ " must be non-empty"] else []
  | some (.prefixMatch s) =>
    if s = "" then ["prefix header value for " ++ goQuote HeaderURI ++ " must be non-empty"] else []
  | some (.regexMatch s) =>
    if s = "" then ["regex header value for " ++ goQuote HeaderURI ++ " must be non-empty"] else []
  | none => []

/-- Embeds `ValidateMatchCondition` (validation.go:239-294). -/
def ValidateMatchCondition (mc : MatchCondition) : List String :=
  (if mc.source = "" then [] else optErr (ValidateFQDN mc.source)) ++
  TagsValidate mc.sourceTags ++
  (match mc.tcp with
   | none => []
   | some tcp => ValidateL4MatchAttributes tcp) ++
  (match mc.udp with
   | none => []
   | some udp => ValidateL4MatchAttributes udp ++ ["Istio does not support UDP protocol yet"]) ++
  mc.httpHeaders.flatMap fun nv =>
    (match ValidateHTTPHeaderName nv.1 with
     | some e => [prefixErr ("header name " ++ goQuote nv.1 ++ " invalid: ") e]
     | none => []) ++
    (match ValidateStringMatch nv.2 with
     | some e => [prefixErr ("header " ++ goQuote nv.1 ++ " value invalid: ") e]
     | none => []) ++
    (if nv.1 = HeaderURI then uriHeaderErrs nv.2 else [])

/-- Embeds `ValidatePercent` (validation.go:332-337); `int32` as `Int`. -/
def ValidatePercent (val : Int) : Option String :=
  if val < 0 ∨ val > 100 then some "must be in range 0..100" else none

/-- Embeds `ValidateFloatPercent` (validation.go:340-345); `float32` as
`Rat` (the comparisons against 0 and 100 are order comparisons either
way). -/
def ValidateFloatPercent (val : Rat) : Option String :=
  if val < 0 ∨ val > 100 then some "must be in range 0..100" else none

structure DestinationWeight where
  destination : String
  tags : Tags
  weight : Int
deriving DecidableEq, Repr

/-- Embeds `ValidateDestinationWeight` (validation.go:348-364). -/
def ValidateDestinationWeight (dw : DestinationWeight) : List String :=
  (if dw.destination = "" then [] else optErr (ValidateFQDN dw.destination)) ++
  TagsValidate dw.tags ++
  (match ValidatePercent dw.weight with
   | some e => [prefixErr "weight invalid: " e]
   | none => [])

/-- A protobuf `Duration` message (seconds, nanoseconds). -/
structure PDuration where
  seconds : Int
  nanos : Int
deriving DecidableEq, Repr

/-- Signature of the external `ptypes.Duration` conversion: possibly-nil
proto duration to nanoseconds (`time.Duration`) or a conversion error.
The protobuf library is an external collaborator (spec §1 keeps the wire
schema opaque), so the validators are parametrized over it. -/
abbrev PtypesDuration := Option PDuration → Except String Int

section Validators

variable (ptypesDur : PtypesDuration)

/-- Embeds `ValidateDuration` (validation.go:825-837): library conversion,
then the 1ms lower bound and the ms-precision check (`time.Millisecond` is
1e6 ns; Go `%` is truncated-division remainder, `Int.tmod`). -/
def ValidateDuration (pd : Option PDuration) : Option String :=
  match ptypesDur pd with
  | .error e => some e
  | .ok dur =>
    if dur < 1000000 then some "duration must be greater than 1ms"
    else if dur.tmod 1000000 ≠ 0 then some "Istio only supports durations to ms precision"
    else none

structure SimpleTimeoutPolicy where
  timeout : Option PDuration
deriving DecidableEq, Repr

structure HTTPTimeout where
  simpleTimeout : Option SimpleTimeoutPolicy
deriving DecidableEq, Repr

/-- Embeds `ValidateHTTPTimeout` (validation.go:367-377). -/
def ValidateHTTPTimeout (timeout : HTTPTimeout) : List String :=
  match timeout.simpleTimeout with
  | none => []
  | some simple =>
    match ValidateDuration ptypesDur simple.timeout with
    | some e => [prefixErr "httpTimeout invalid: " e]
    | none => []

structure SimpleRetryPolicy where
  attempts : Int
  perTryTimeout : Option PDuration
deriving DecidableEq, Repr

structure HTTPRetry where
  simpleRetry : Option SimpleRetryPolicy
deriving DecidableEq, Repr

/-- Embeds `ValidateHTTPRetries` (validation.go:380-393). -/
def ValidateHTTPRetries (retry : HTTPRetry) : List String :=
  match retry.simpleRetry with
  | none => []
  | some simple =>
    (if simple.attempts < 0 then ["attempts must be in range [0..]"] else []) ++
    (match ValidateDuration ptypesDur simple.perTryTimeout with
     | some e => [prefixErr "perTryTimeout invalid: " e]
     | none => [])

/-- The `HttpDelayType` oneof of `HTTPFaultInjection_Delay`. -/
inductive HTTPDelayType where
  | fixedDelay (d : Option PDuration)
  | exponentialDelay (d : Option PDuration)
deriving DecidableEq, Repr

structure HTTPFaultDelay where
  percent : Rat
  delayType : Option HTTPDelayType
deriving DecidableEq, Repr

def HTTPFaultDelay.getFixedDelay (d : HTTPFaultDelay) : Option PDuration :=
  match d.delayType with
  | some (.fixedDelay fd) => fd
  | _ => none

def HTTPFaultDelay.getExponentialDelay (d : HTTPFaultDelay) : Option PDuration :=
  match d.delayType with
  | some (.exponentialDelay ed) => ed
  | _ => none

/-- Embeds `ValidateDelay` (validation.go:486-502); the source's
`"fixedDelay invalid:"` prefix really has no trailing space. -/
def ValidateDelay (delay : HTTPFaultDelay) : List String :=
  (match ValidateFloatPercent delay.percent with
   | some e => [prefixErr "percent invalid: " e]
   | none => []) ++
  (match ValidateDuration ptypesDur delay.getFixedDelay with
   | some e => [prefixErr "fixedDelay invalid:" e]
   | none => []) ++
  (match delay.getExponentialDelay with
   | none => []
   | some ed =>
     (match ValidateDuration ptypesDur (some ed) with
      | some e => [prefixErr "exponentialDelay invalid: " e]
      | none => []) ++
     ["Istio does not support exponentialDelay yet"])

/-- The `ErrorType` oneof of `HTTPFaultInjection_Abort`. -/
inductive AbortErrorType where
  | grpcStatus (s : String)
  | http2Error (s : String)
  | httpStatus (status : Int)
deriving DecidableEq, Repr

structure HTTPFaultAbort where
  percent : Rat
  errorType : Option AbortErrorType
deriving DecidableEq, Repr

/-- Embeds `ValidateAbortHTTPStatus` (validation.go:505-511). -/
def ValidateAbortHTTPStatus (httpStatus : Int) : List String :=
  if httpStatus < 0 ∨ httpStatus > 600 then
    ["invalid abort http status " ++ toString httpStatus]
  else []

/-- Embeds `ValidateAbort` (validation.go:514-534); an unset oneof falls
off the switch with no error. -/
def ValidateAbort (abort : HTTPFaultAbort) : List String :=
  (match ValidateFloatPercent abort.percent with
   | some e => [prefixErr "percent invalid: " e]
   | none => []) ++
  (match abort.errorType with
   | some (.grpcStatus _) => ["Istio does not support gRPC fault injection yet"]
   | some (.http2Error _) => []
   | some (.httpStatus status) => ValidateAbortHTTPStatus status
   | none => [])

structure HTTPFaultInjection where
  delay : Option HTTPFaultDelay
  abort : Option HTTPFaultAbort
deriving DecidableEq, Repr

/-- Embeds `ValidateHTTPFault` (validation.go:396-410). -/
def ValidateHTTPFault (fault : HTTPFaultInjection) : List String :=
  (match fault.delay with
   | none => []
   | some d => ValidateDelay ptypesDur d) ++
  (match fault.abort with
   | none => []
   | some a => ValidateAbort a)

structure L4Terminate where
  percent : Rat
deriving DecidableEq, Repr

/-- The `ThrottleAfter` oneof of `L4FaultInjection_Throttle`. -/
inductive ThrottleAfter where
  | afterPeriod (d : Option PDuration)
  | afterBytes (n : Int)
deriving DecidableEq, Repr

structure L4Throttle where
  percent : Rat
  downstreamLimitBps : Int
  upstreamLimitBps : Int
  throttleAfter : Option ThrottleAfter
deriving DecidableEq, Repr

def L4Throttle.getThrottleAfterPeriod (t : L4Throttle) : Option PDuration :=
  match t.throttleAfter with
  | some (.afterPeriod d) => d
  | _ => none

def L4Throttle.getThrottleAfterBytes (t : L4Throttle) : Int :=
  match t.throttleAfter with
  | some (.afterBytes n) => n
  | _ => 0

structure L4FaultInjection where
  terminate : Option L4Terminate
  throttle : Option L4Throttle
deriving DecidableEq, Repr

/-- Embeds `ValidateTerminate` (validation.go:537-542). -/
def ValidateTerminate (terminate : L4Terminate) : List String :=
  match ValidateFloatPercent terminate.percent with
  | some e => [prefixErr "terminate percent invalid: " e]
  | none => []

/-- Embeds `ValidateThrottle` (validation.go:545-570). -/
def ValidateThrottle (throttle : L4Throttle) : List String :=
  (match ValidateFloatPercent throttle.percent with
   | some e => [prefixErr "throttle percent invalid: " e]
   | none => []) ++
  (if throttle.downstreamLimitBps < 0 then ["downstreamLimitBps invalid"] else []) ++
  (if throttle.upstreamLimitBps < 0 then ["upstreamLimitBps invalid"] else []) ++
  (match ValidateDuration ptypesDur throttle.getThrottleAfterPeriod with
   | some _ => ["throttleAfterPeriod invalid"]
   | none => []) ++
  (if throttle.getThrottleAfterBytes < 0 then ["throttleAfterBytes invalid"] else [])

/-- Embeds `ValidateL4Fault` (validation.go:413-428). -/
def ValidateL4Fault (fault : L4FaultInjection) : List String :=
  (match fault.terminate with
   | none => []
   | some t => ValidateTerminate t ++ ["Istio does not support the terminate fault yet"]) ++
  (match fault.throttle with
   | none => []
   | some t => ValidateThrottle ptypesDur t)

/-- The weight-summing loop of `ValidateWeights` (validation.go:626-629);
Go sums `int(destWeight.Weight)` into an `int`. -/
def sumWeights (routes : List DestinationWeight) : Int :=
  routes.foldl (fun sum dw => sum + dw.weight) 0

/-- Embeds `ValidateWeights` (validation.go:624-642); `defaultDestination`
is a parameter of the Go function but unused by its body.  The Go code
computes the sum once into a local; it is written via `sumWeights` here. -/
def ValidateWeights (routes : List DestinationWeight) (defaultDestination : String) :
    List String :=
  if routes.length = 1 ∧ sumWeights routes = 0 then []
  else if sumWeights routes ≠ 100 then
    ["Route weights total " ++ toString (sumWeights routes) ++ " (must total 100)"]
  else []

structure HTTPRewrite where
  uri : String
  authority : String
deriving DecidableEq, Repr

structure HTTPRedirect where
  uri : String
  authority : String
deriving DecidableEq, Repr

/-- A `proxyconfig.RouteRule` message; `route` is an `Option` to keep Go's
nil-vs-empty slice distinction (`value.Route != nil` gates the weight
checks while `len(value.Route) > 0` gates the redirect conflict). -/
structure RouteRule where
  name : String
  destination : String
  precedence : Int
  matchCond : Option MatchCondition
  rewrite : Option HTTPRewrite
  redirect : Option HTTPRedirect
  route : Option (List DestinationWeight)
  httpReqTimeout : Option HTTPTimeout
  httpReqRetries : Option HTTPRetry
  httpFault : Option HTTPFaultInjection
  l4Fault : Option L4FaultInjection
deriving DecidableEq, Repr

/-- Embeds `ValidateRouteRule` (validation.go:645-734) on a payload that
is a routing rule (the Go `proto.Message` type switch is the cast at the
top; a non-rule payload never reaches the field checks).  Each `++`
segment is one `multierror.Append` site, in source order. -/
def ValidateRouteRule (value : RouteRule) : List String :=
  (if value.name = "" then ["route rule must have a name"] else []) ++
  (if IsDNS1123Label value.name then [] else ["route rule name must be a host name label"]) ++
  (if value.destination = "" then ["route rule must have a destination service"] else []) ++
  optErr (ValidateFQDN value.destination) ++
  (match value.matchCond with
   | none => []
   | some mc => ValidateMatchCondition mc) ++
  (match value.rewrite with
   | none => []
   | some rw =>
     if rw.uri = "" ∧ rw.authority = "" then ["rewrite must specify path, host, or both"]
     else []) ++
  (match value.redirect with
   | none => []
   | some rd =>
     (if 0 < (value.route.getD []).length then ["rule cannot contain both route and redirect"]
      else []) ++
     (if value.httpFault.isSome then ["rule cannot contain both fault and redirect"] else []) ++
     (if rd.authority = "" ∧ rd.uri = "" then ["redirect must specify path, host, or both"]
      else [])) ++
  (if value.redirect.isSome ∧ value.rewrite.isSome then
    ["rule cannot contain both rewrite and redirect"]
   else []) ++
  (match value.route with
   | none => []
   | some routes =>
     routes.flatMap ValidateDestinationWeight ++ ValidateWeights routes value.destination) ++
  (match value.httpReqTimeout with
   | none => []
   | some t => ValidateHTTPTimeout ptypesDur t) ++
  (match value.httpReqRetries with
   | none => []
   | some r => ValidateHTTPRetries ptypesDur r) ++
  (match value.httpFault with
   | none => []
   | some f => ValidateHTTPFault ptypesDur f) ++
  (match value.l4Fault with
   | none => []
   | some f => ValidateL4Fault ptypesDur f ++ ["L4 faults are not implemented"])

end Validators

/-- A payload as seen through the proto registry: its discovered message
name (`proto.MessageName`) plus opaque content.  Payloads here are already
`proto.Message`s, so the Go interface cast in `ValidateConfig`
(validation.go:114-117) always succeeds in this model. -/
structure ProtoMessage where
  name : String
  content : String
deriving DecidableEq, Repr

/-- An entry of the `ConfigDescriptor` registry (`model.ProtoSchema`; the
struct itself lives in the model package outside src/, and these are
exactly the fields validation.go uses): type name, plural name, proto
message name, the nilable key-extraction function, and the kind-specific
validator. -/
structure ProtoSchema where
  type : String
  plural : String
  messageName : String
  key : Option (ProtoMessage → String)
  validate : ProtoMessage → Option String

abbrev ConfigDescriptor := List ProtoSchema

/-- Modelled from the spec: `ConfigDescriptor.GetByType` looks up the kind
registered under a type name (model/config.go is not under src/; spec §3
says type names are unique registry keys). -/
def GetByType (descriptor : ConfigDescriptor) (typ : String) : Option ProtoSchema :=
  descriptor.find? fun s => s.type == typ

/-- Embeds `ValidateConfig` (validation.go:104-129): nil-payload check,
then registry lookup, then the (here always-successful) message cast, then
the message-name comparison, then delegation to the kind validator, whose
result is returned unchanged. -/
def ValidateConfig (descriptor : ConfigDescriptor) (typ : String)
    (obj : Option ProtoMessage) : Option String :=
  match obj with
  | none => some "invalid nil configuration object"
  | some v =>
    match GetByType descriptor typ with
    | none => some ("undeclared type: " ++ goQuote typ)
    | some t =>
      if v.name ≠ t.messageName then
        some ("mismatched message type " ++ goQuote v.name ++ " and type " ++
          goQuote t.messageName)
      else t.validate v

/-- The loop body of `ConfigDescriptor.Validate` (validation.go:73-101)
with the `types`/`messages` sets accumulated as lists; `proto.MessageType`
(the global proto registry, an external collaborator) is the predicate
`msgType`. -/
def descriptorValidateGo (msgType : String → Bool) :
    ConfigDescriptor → List String → List String → List String
  | [], _, _ => []
  | v :: rest, types, messages =>
    (if v.key.isNone then ["missing the required key function for type: " ++ goQuote v.type]
     else []) ++
    (if IsDNS1123Label v.type then [] else ["invalid type: " ++ goQuote v.type]) ++
    (if IsDNS1123Label v.plural then [] else ["invalid plural: " ++ goQuote v.type]) ++
    (if msgType v.messageName then []
     else ["cannot discover proto message type: " ++ goQuote v.messageName]) ++
    (if v.type ∈ types then ["duplicate type: " ++ goQuote v.type] else []) ++
    (if v.messageName ∈ messages then ["duplicate message type: " ++ goQuote v.messageName]
     else []) ++
    descriptorValidateGo msgType rest (v.type :: types) (v.messageName :: messages)

/-- Embeds `ConfigDescriptor.Validate` (validation.go:73-101).  Note the
source's `invalid plural` message prints `v.Type` (validation.go:86). -/
def descriptorValidate (msgType : String → Bool) (descriptor : ConfigDescriptor) :
    List String :=
  descriptorValidateGo msgType descriptor [] []

/-- C4: `ValidateConfig(type, payload)` returns an error exactly when the
payload is absent, the type is unregistered, the payload's discovered
message name differs from the registered one, or the kind-specific
validator fails — and succeeds otherwise; each failure returns its labeled
error (the nil-payload check runs before the registry lookup, so an absent
payload reports the nil-payload error even for an unknown type), and in
the success path the kind validator's result is surfaced unchanged. -/
theorem validateConfig_spec (descriptor : ConfigDescriptor) (typ : String)
    (obj : Option ProtoMessage) :
    (ValidateConfig descriptor typ obj = none ↔
      ∃ v t, obj = some v ∧ GetByType descriptor typ = some t ∧
        v.name = t.messageName ∧ t.validate v = none) ∧
    (obj = none →
      ValidateConfig descriptor typ obj = some "invalid nil configuration object") ∧
    (∀ v, obj = some v → GetByType descriptor typ = none →
      ValidateConfig descriptor typ obj = some ("undeclared type: " ++ goQuote typ)) ∧
    (∀ v t, obj = some v → GetByType descriptor typ = some t → v.name ≠ t.messageName →
      ValidateConfig descriptor typ obj =
        some ("mismatched message type " ++ goQuote v.name ++ " and type " ++
          goQuote t.messageName)) ∧
    (∀ v t, obj = some v → GetByType descriptor typ = some t → v.name = t.messageName →
      ValidateConfig descriptor typ obj = t.validate v) := by
  cases obj with
  | none =>
    refine ⟨⟨fun h => ?_, fun h => ?_⟩, fun _ => rfl, fun v hv => Option.noConfusion hv,
      fun v t hv => Option.noConfusion hv, fun v t hv => Option.noConfusion hv⟩
    · simp [ValidateConfig] at h
    · rcases h with ⟨v, t, hv, _⟩
      exact Option.noConfusion hv
  | some v =>
    cases hg : GetByType descriptor typ with
    | none =>
      refine ⟨⟨fun h => ?_, fun h => ?_⟩, fun h => Option.noConfusion h,
        fun w hw hnone => ?_, fun w t hw ht => ?_, fun w t hw ht => ?_⟩
      · simp [ValidateConfig, hg] at h
      · rcases h with ⟨w, t, hw, ht, _⟩
        exact Option.noConfusion ht
      · cases Option.some.inj hw
        simp [ValidateConfig, hg]
      · exact Option.noConfusion ht
      · exact Option.noConfusion ht
    | some t =>
      by_cases hname : v.name = t.messageName
      · refine ⟨⟨fun h => ?_, fun h => ?_⟩, fun h => Option.noConfusion h,
          fun w hw hnone => ?_, fun w u hw hu hne => ?_, fun w u hw hu heq => ?_⟩
        · refine ⟨v, t, rfl, rfl, hname, ?_⟩
          simpa [ValidateConfig, hg, hname] using h
        · rcases h with ⟨w, u, hw, hu, heq, hval⟩
          cases Option.some.inj hw
          cases Option.some.inj hu
          simp [ValidateConfig, hg, hname, hval]
        · exact Option.noConfusion hnone
        · cases Option.some.inj hw
          cases Option.some.inj hu
          exact absurd hname hne
        · cases Option.some.inj hw
          cases Option.some.inj hu
          simp [ValidateConfig, hg, hname]
      · refine ⟨⟨fun h => ?_, fun h => ?_⟩, fun h => Option.noConfusion h,
          fun w hw hnone => ?_, fun w u hw hu hne => ?_, fun w u hw hu heq => ?_⟩
        · simp [ValidateConfig, hg, hname] at h
        · rcases h with ⟨w, u, hw, hu, heq, hval⟩
          cases Option.some.inj hw
          cases Option.some.inj hu
          exact absurd heq hname
        · exact Option.noConfusion hnone
        · cases Option.some.inj hw
          cases Option.some.inj hu
          simp [ValidateConfig, hg, hname]
        · cases Option.some.inj hw
          cases Option.some.inj hu
          exact absurd heq hname

/-- Example registry entry used by the C4 witness. -/
def schemaEx : ProtoSchema :=
  ⟨"route-rule", "route-rules", "RouteRule", some (fun _ => "k"), fun _ => some "bad payload"⟩

/-- Witness for C4: a one-entry registry, exercising the nil-payload
error, the unknown-type error, and the unchanged delegation to the kind
validator. -/
theorem validateConfig_spec_witness :
    ValidateConfig [schemaEx] "route-rule" none
      = some "invalid nil configuration object" ∧
    ValidateConfig [schemaEx] "nosuch" (some ⟨"RouteRule", ""⟩)
      = some ("undeclared type: " ++ goQuote "nosuch") ∧
    ValidateConfig [schemaEx] "route-rule" (some ⟨"RouteRule", ""⟩)
      = some "bad payload" :=
  ⟨(validateConfig_spec [schemaEx] "route-rule" none).2.1 rfl,
   (validateConfig_spec [schemaEx] "nosuch" (some ⟨"RouteRule", ""⟩)).2.2.1
     ⟨"RouteRule", ""⟩ rfl rfl,
   (validateConfig_spec [schemaEx] "route-rule" (some ⟨"RouteRule", ""⟩)).2.2.2.2
     ⟨"RouteRule", ""⟩ schemaEx rfl rfl rfl⟩

/-- C6 counterexample: a rule with two destinations weighted 60 and 30
fails, but with the error "Route weights total 90 (must total 100)" — the
sum of 60 and 30 is 90, so no "weights total 70" message is returned,
contrary to the claim's quoted error. -/
theorem validateWeights_60_30_reports_90_not_70 :
    ValidateWeights [⟨"", [], 60⟩, ⟨"", [], 30⟩] "svc"
      = ["Route weights total 90 (must total 100)"] ∧
    "Route weights total 70 (must total 100)" ∉
      ValidateWeights [⟨"", [], 60⟩, ⟨"", [], 30⟩] "svc" := by
  constructor
  · rfl
  · decide

/-- C6 (amended): route-weight validation accepts a destination list
exactly when the weights sum to 100, or when there is exactly one
destination with implicit weight (weight 0); a rule with two destinations
weighted 60 and 30 fails with a "weights total 90, must total 100" error
(their sum is 90, not the 70 quoted in the claim), and a
single-destination rule with weight 0 passes. -/
theorem validateWeights_spec (routes : List DestinationWeight) (dest : String) :
    (ValidateWeights routes dest = [] ↔
      sumWeights routes = 100 ∨ (routes.length = 1 ∧ sumWeights routes = 0)) ∧
    ValidateWeights [⟨"", [], 60⟩, ⟨"", [], 30⟩] dest
      = ["Route weights total 90 (must total 100)"] ∧
    ValidateWeights [⟨"", [], 0⟩] dest = [] := by
  refine ⟨?_, rfl, rfl⟩
  by_cases h1 : routes.length = 1 ∧ sumWeights routes = 0
  · simp [ValidateWeights, h1]
  · by_cases h2 : sumWeights routes = 100
    · simp [ValidateWeights, h1, h2]
    · simp [ValidateWeights, h1, h2]

/-- Witness for C6 at the concrete scenario destination lists. -/
theorem validateWeights_spec_witness :
    (ValidateWeights [(⟨"", [], 50⟩ : DestinationWeight), ⟨"", [], 50⟩] "svc" = [] ↔
      sumWeights [(⟨"", [], 50⟩ : DestinationWeight), ⟨"", [], 50⟩] = 100 ∨
        ([(⟨"", [], 50⟩ : DestinationWeight), ⟨"", [], 50⟩].length = 1 ∧
          sumWeights [(⟨"", [], 50⟩ : DestinationWeight), ⟨"", [], 50⟩] = 0)) ∧
    ValidateWeights [⟨"", [], 60⟩, ⟨"", [], 30⟩] "svc"
      = ["Route weights total 90 (must total 100)"] ∧
    ValidateWeights [⟨"", [], 0⟩] "svc" = [] :=
  validateWeights_spec [⟨"", [], 50⟩, ⟨"", [], 50⟩] "svc"

/-! ## Aggregation lemmas for C7 -/

theorem descriptorValidateGo_mem_of_violation (msgType : String → Bool)
    (d : ConfigDescriptor) (v : ProtoSchema) (hv : v ∈ d) :
    ∀ types messages,
      (v.key.isNone = true →
        ("missing the required key function for type: " ++ goQuote v.type) ∈
          descriptorValidateGo msgType d types messages) ∧
      (IsDNS1123Label v.type = false →
        ("invalid type: " ++ goQuote v.type) ∈
          descriptorValidateGo msgType d types messages) ∧
      (IsDNS1123Label v.plural = false →
        ("invalid plural: " ++ goQuote v.type) ∈
          descriptorValidateGo msgType d types messages) ∧
      (msgType v.messageName = false →
        ("cannot discover proto message type: " ++ goQuote v.messageName) ∈
          descriptorValidateGo msgType d types messages) := by
  induction d with
  | nil => simp at hv
  | cons u rest ih =>
    intro types messages
    rcases List.mem_cons.mp hv with h | h
    · subst h
      refine ⟨fun hk => ?_, fun ht => ?_, fun hp => ?_, fun hm => ?_⟩
      · rw [descriptorValidateGo]
        simp [hk]
      · rw [descriptorValidateGo]
        simp [ht]
      · rw [descriptorValidateGo]
        simp [hp]
      · rw [descriptorValidateGo]
        simp [hm]
    · have hrec := ih h (u.type :: types) (u.messageName :: messages)
      refine ⟨fun hk => ?_, fun ht => ?_, fun hp => ?_, fun hm => ?_⟩
      · have := hrec.1 hk
        rw [descriptorValidateGo]
        simp [List.mem_append, this]
      · have := hrec.2.1 ht
        rw [descriptorValidateGo]
        simp [List.mem_append, this]
      · have := hrec.2.2.1 hp
        rw [descriptorValidateGo]
        simp [List.mem_append, this]
      · have := hrec.2.2.2 hm
        rw [descriptorValidateGo]
        simp [List.mem_append, this]

theorem descriptorValidateGo_mem_dup_type (msgType : String → Bool)
    (d : ConfigDescriptor) (v : ProtoSchema) (hv : v ∈ d) :
    ∀ types messages, v.type ∈ types →
      ("duplicate type: " ++ goQuote v.type) ∈
        descriptorValidateGo msgType d types messages := by
  induction d with
  | nil => simp at hv
  | cons u rest ih =>
    intro types messages htyp
    rcases List.mem_cons.mp hv with h | h
    · subst h
      rw [descriptorValidateGo]
      simp [htyp]
    · have := ih h (u.type :: types) (u.messageName :: messages) (by simp [htyp])
      rw [descriptorValidateGo]
      simp [List.mem_append, this]

theorem descriptorValidateGo_mem_dup_message (msgType : String → Bool)
    (d : ConfigDescriptor) (v : ProtoSchema) (hv : v ∈ d) :
    ∀ types messages, v.messageName ∈ messages →
      ("duplicate message type: " ++ goQuote v.messageName) ∈
        descriptorValidateGo msgType d types messages := by
  induction d with
  | nil => simp at hv
  | cons u rest ih =>
    intro types messages hmsg
    rcases List.mem_cons.mp hv with h | h
    · subst h
      rw [descriptorValidateGo]
      simp [hmsg]
    · have := ih h (u.type :: types) (u.messageName :: messages) (by simp [hmsg])
      rw [descriptorValidateGo]
      simp [List.mem_append, this]

theorem descriptorValidate_mem_dup_type (msgType : String → Bool)
    (d1 d2 : ConfigDescriptor) (u v : ProtoSchema) (hv : v ∈ d2) (ht : v.type = u.type) :
    ("duplicate type: " ++ goQuote v.type) ∈ descriptorValidate msgType (d1 ++ u :: d2) := by
  suffices h : ∀ types messages,
      ("duplicate type: " ++ goQuote v.type) ∈
        descriptorValidateGo msgType (d1 ++ u :: d2) types messages from h [] []
  induction d1 with
  | nil =>
    intro types messages
    rw [List.nil_append, descriptorValidateGo]
    have := descriptorValidateGo_mem_dup_type msgType d2 v hv
      (u.type :: types) (u.messageName :: messages) (by simp [ht])
    simp [List.mem_append, this]
  | cons w rest ih =>
    intro types messages
    rw [List.cons_append, descriptorValidateGo]
    have := ih (w.type :: types) (w.messageName :: messages)
    simp [List.mem_append, this]

theorem descriptorValidate_mem_dup_message (msgType : String → Bool)
    (d1 d2 : ConfigDescriptor) (u v : ProtoSchema) (hv : v ∈ d2)
    (hm : v.messageName = u.messageName) :
    ("duplicate message type: " ++ goQuote v.messageName) ∈
      descriptorValidate msgType (d1 ++ u :: d2) := by
  suffices h : ∀ types messages,
      ("duplicate message type: " ++ goQuote v.messageName) ∈
        descriptorValidateGo msgType (d1 ++ u :: d2) types messages from h [] []
  induction d1 with
  | nil =>
    intro types messages
    rw [List.nil_append, descriptorValidateGo]
    have := descriptorValidateGo_mem_dup_message msgType d2 v hv
      (u.type :: types) (u.messageName :: messages) (by simp [hm])
    simp [List.mem_append, this]
  | cons w rest ih =>
    intro types messages
    rw [List.cons_append, descriptorValidateGo]
    have := ih (w.type :: types) (w.messageName :: messages)
    simp [List.mem_append, this]

/-- C7: the validators aggregate rather than short-circuit.  For the
registry validator, every entry's missing key function, invalid type or
plural name, undiscoverable message type, and every duplicated type or
message name each contribute their own message to the single returned
error list (all simultaneously, since membership is in the one list
`descriptorValidate` returns).  For the route-rule validator, every
violated field rule — missing name, non-label name, missing destination,
route/redirect conflict, rewrite/redirect conflict — contributes its
message, and every error of the inner weight validator appears unchanged
in the combined list. -/
theorem validators_aggregate_all_violations (msgType : String → Bool)
    (ptypesDur : PtypesDuration) (d d1 d2 : ConfigDescriptor) (u v w : ProtoSchema)
    (value : RouteRule) :
    (v ∈ d → v.key.isNone = true →
      ("missing the required key function for type: " ++ goQuote v.type) ∈
        descriptorValidate msgType d) ∧
    (v ∈ d → IsDNS1123Label v.type = false →
      ("invalid type: " ++ goQuote v.type) ∈ descriptorValidate msgType d) ∧
    (v ∈ d → IsDNS1123Label v.plural = false →
      ("invalid plural: " ++ goQuote v.type) ∈ descriptorValidate msgType d) ∧
    (v ∈ d → msgType v.messageName = false →
      ("cannot discover proto message type: " ++ goQuote v.messageName) ∈
        descriptorValidate msgType d) ∧
    (w ∈ d2 → w.type = u.type →
      ("duplicate type: " ++ goQuote w.type) ∈ descriptorValidate msgType (d1 ++ u :: d2)) ∧
    (w ∈ d2 → w.messageName = u.messageName →
      ("duplicate message type: " ++ goQuote w.messageName) ∈
        descriptorValidate msgType (d1 ++ u :: d2)) ∧
    (value.name = "" → "route rule must have a name" ∈ ValidateRouteRule ptypesDur value) ∧
    (IsDNS1123Label value.name = false →
      "route rule name must be a host name label" ∈ ValidateRouteRule ptypesDur value) ∧
    (value.destination = "" →
      "route rule must have a destination service" ∈ ValidateRouteRule ptypesDur value) ∧
    (∀ rd routes, value.redirect = some rd → value.route = some routes → routes ≠ [] →
      "rule cannot contain both route and redirect" ∈ ValidateRouteRule ptypesDur value) ∧
    (∀ rd rw, value.redirect = some rd → value.rewrite = some rw →
      "rule cannot contain both rewrite and redirect" ∈ ValidateRouteRule ptypesDur value) ∧
    (∀ routes m, value.route = some routes → m ∈ ValidateWeights routes value.destination →
      m ∈ ValidateRouteRule ptypesDur value) := by
  refine ⟨fun hv hk => (descriptorValidateGo_mem_of_violation msgType d v hv [] []).1 hk,
    fun hv ht => (descriptorValidateGo_mem_of_violation msgType d v hv [] []).2.1 ht,
    fun hv hp => (descriptorValidateGo_mem_of_violation msgType d v hv [] []).2.2.1 hp,
    fun hv hm => (descriptorValidateGo_mem_of_violation msgType d v hv [] []).2.2.2 hm,
    fun hw ht => descriptorValidate_mem_dup_type msgType d1 d2 u w hw ht,
    fun hw hm => descriptorValidate_mem_dup_message msgType d1 d2 u w hw hm,
    fun hname => ?_, fun hlabel => ?_, fun hdest => ?_,
    fun rd routes hrd hroutes hne => ?_, fun rd rw hrd hrw => ?_,
    fun routes m hroutes hm => ?_⟩
  · simp [ValidateRouteRule, hname]
  · simp [ValidateRouteRule, hlabel]
  · simp [ValidateRouteRule, hdest]
  · have hlen : 0 < ((value.route.getD []).length) := by
      rw [hroutes]
      simpa using List.length_pos.mpr hne
    simp [ValidateRouteRule, hrd, hlen]
  · simp [ValidateRouteRule, hrd, hrw]
  · simp [ValidateRouteRule, hroutes, List.mem_append, hm]

/-- Registry entries and route rule used by the C7 witness: the second
entry lacks a key function, has an invalid plural, and duplicates the
first entry's type and message names; the rule has an empty name, a
redirect/route/rewrite conflict and weights 60/30. -/
def schemaDup1 : ProtoSchema :=
  ⟨"route-rule", "route-rules", "RouteRule", some (fun _ => "k"), fun _ => none⟩

def schemaDup2 : ProtoSchema :=
  ⟨"route-rule", "Route_Rules", "RouteRule", none, fun _ => none⟩

def ruleEx : RouteRule :=
  ⟨"", "svc", 0, none, some ⟨"", ""⟩, some ⟨"", ""⟩,
    some [⟨"", [], 60⟩, ⟨"", [], 30⟩], none, none, none, none⟩

/-- Witness for C7: every violation of the example registry and the
example rule is reported in the single returned list. -/
theorem validators_aggregate_all_violations_witness :
    ("missing the required key function for type: " ++ goQuote "route-rule") ∈
      descriptorValidate (fun _ => true) [schemaDup1, schemaDup2] ∧
    ("invalid plural: " ++ goQuote "route-rule") ∈
      descriptorValidate (fun _ => true) [schemaDup1, schemaDup2] ∧
    ("duplicate type: " ++ goQuote "route-rule") ∈
      descriptorValidate (fun _ => true) [schemaDup1, schemaDup2] ∧
    ("duplicate message type: " ++ goQuote "RouteRule") ∈
      descriptorValidate (fun _ => true) [schemaDup1, schemaDup2] ∧
    "route rule must have a name" ∈
      ValidateRouteRule (fun _ => .error "nil Duration") ruleEx ∧
    "rule cannot contain both route and redirect" ∈
      ValidateRouteRule (fun _ => .error "nil Duration") ruleEx ∧
    "rule cannot contain both rewrite and redirect" ∈
      ValidateRouteRule (fun _ => .error "nil Duration") ruleEx ∧
    "Route weights total 90 (must total 100)" ∈
      ValidateRouteRule (fun _ => .error "nil Duration") ruleEx := by
  have h := validators_aggregate_all_violations (fun _ => true)
    (fun _ => .error "nil Duration") [schemaDup1, schemaDup2] [] [schemaDup2]
    schemaDup1 schemaDup2 schemaDup2 ruleEx
  have hmem : schemaDup2 ∈ [schemaDup1, schemaDup2] :=
    List.mem_cons_of_mem _ (List.mem_cons_self _ _)
  have hmem2 : schemaDup2 ∈ [schemaDup2] := List.mem_cons_self _ _
  exact ⟨h.1 hmem rfl,
    h.2.2.1 hmem (by decide),
    h.2.2.2.2.1 hmem2 rfl,
    h.2.2.2.2.2.1 hmem2 rfl,
    h.2.2.2.2.2.2.1 rfl,
    h.2.2.2.2.2.2.2.2.2.1 ⟨"", ""⟩ [⟨"", [], 60⟩, ⟨"", [], 30⟩] rfl rfl (by simp),
    h.2.2.2.2.2.2.2.2.2.2.1 ⟨"", ""⟩ ⟨"", ""⟩ rfl rfl,
    h.2.2.2.2.2.2.2.2.2.2.2 [⟨"", [], 60⟩, ⟨"", [], 30⟩]
      "Route weights total 90 (must total 100)" rfl (by decide)⟩

/-! ## Push watch adapter: the ingress controller
(adapter/config/ingress/controller.go)

`kube.Queue`, `kube.ChainHandler` and the informer live in the kube
platform package, which is not under src/, so the chain-application
semantics is modelled from the spec; the gate handler itself and the
`Get`/`List`/`Post`/`Put`/`Delete` methods are embedded from the source. -/

def errUnsupportedOp : String :=
  "unsupported operation: the ingress config store is a read-only view"

/-- The registered ingress-rule type name (`model.IngressRule.Type`; the
constant lives in the model package outside src/ — no claim here depends
on its concrete value, only on equality with itself). -/
def ingressRuleType : String :=
  "ingress-rule"

/-- A cached Kubernetes ingress object, reduced to the identity and
revision data the controller reads (`Name`, `Namespace`,
`ResourceVersion`). -/
structure Ingress where
  name : String
  ns : String
  resourceVersion : String
deriving DecidableEq, Repr

/-- A handler step of the kube chain: raw object and event to
error-or-nil. -/
abbrev KubeHandler (ω : Type) := ω → Event → Option String

/-- Modelled from the spec: `kube.ChainHandler.Apply` (platform/kube, not
under src/) applies the chain's handlers to a dequeued item in order and
stops at the first error — "an ordered list of processing steps applied to
every dequeued item; the first step gates all subsequent ones" (spec
§4.3).  Returns the error and how many handlers were invoked. -/
def chainApply {ω : Type} : List (KubeHandler ω) → ω → Event → Option String × Nat
  | [], _, _ => (none, 0)
  | h :: rest, obj, ev =>
    match h obj ev with
    | some e => (some e, 1)
    | none =>
      let r := chainApply rest obj ev
      (r.1, r.2 + 1)

/-- Embeds the first handler appended in `NewController`
(controller.go:88-98): it returns the "waiting till full synchronization"
error while `informer.HasSynced()` is false (`hasSynced` is this call's
result) and nil afterwards; the ingress log statement in its body has no
effect on the result. -/
def ingressChainHead {ω : Type} (hasSynced : Bool) : KubeHandler ω :=
  fun _ _ => if !hasSynced then some "waiting till full synchronization" else none

/-- C8: while `HasSynced()` is false, the first handler of the chain fails
every dequeued item, so the chain stops with the synchronization error
after invoking only that gate handler — no downstream translation handler
runs; once `HasSynced()` is true the gate step succeeds and the chain
proceeds to the downstream handlers. -/
theorem sync_gate_blocks_downstream {ω : Type} (hs : List (KubeHandler ω))
    (obj : ω) (ev : Event) :
    chainApply (ingressChainHead false :: hs) obj ev
      = (some "waiting till full synchronization", 1) ∧
    ingressChainHead true obj ev = none ∧
    chainApply (ingressChainHead true :: hs) obj ev
      = ((chainApply hs obj ev).1, (chainApply hs obj ev).2 + 1) :=
  ⟨rfl, rfl, rfl⟩

/-- Embeds `controller.Get` (controller.go:148-177).  The helpers live in
files outside src/ and are taken as parameters: `decode` is
`decodeIngressRuleName` (derived key to ingress name and namespace),
`keyFunc` is `kube.KeyFunc`, `getByKey` is the informer store lookup
(`obj, exists, err`), `shouldProcess` is `shouldProcessIngress(mesh, ·)`,
and `convert` is `convertIngress`, the derived rules as a keyed list.
Returns `(message, found, revision)`; note the source returns the
ingress's revision even when the derived key is absent. -/
def controllerGet {ρ : Type} (decode : String → Except String (String × String))
    (keyFunc : String → String → String)
    (getByKey : String → Except String (Option Ingress))
    (shouldProcess : Ingress → Bool) (convert : Ingress → List (String × ρ))
    (typ key : String) : Option ρ × Bool × String :=
  if typ ≠ ingressRuleType then (none, false, "")
  else
    match decode key with
    | .error _ => (none, false, "")
    | .ok (ingressName, ingressNamespace) =>
      match getByKey (keyFunc ingressName ingressNamespace) with
      | .error _ => (none, false, "")
      | .ok none => (none, false, "")
      | .ok (some ingress) =>
        if !shouldProcess ingress then (none, false, "")
        else
          match (convert ingress).lookup key with
          | some rule => (some rule, true, ingress.resourceVersion)
          | none => (none, false, ingress.resourceVersion)

/-- Embeds `controller.List` (controller.go:179-201): a foreign type gets
the `UnsupportedOperation` error; otherwise every cached ingress passing
the filter is converted and its derived records are flattened into
configs carrying the ingress's resource version. -/
def controllerList {ρ : Type} (storeList : List Ingress)
    (shouldProcess : Ingress → Bool) (convert : Ingress → List (String × ρ))
    (typ : String) : Except String (List (Config ρ)) :=
  if typ ≠ ingressRuleType then .error errUnsupportedOp
  else .ok (storeList.flatMap fun ingress =>
    if shouldProcess ingress then
      (convert ingress).map fun kr => ⟨ingressRuleType, kr.1, ingress.resourceVersion, kr.2⟩
    else [])

/-- Embeds `controller.Post` (controller.go:203-205); the receiver state
`s` is threaded through to express that the call leaves the store
untouched — the Go body is a single `return "", errUnsupportedOp`. -/
def controllerPost {σ μ : Type} (s : σ) (config : μ) : σ × String × Option String :=
  (s, "", some errUnsupportedOp)

/-- Embeds `controller.Put` (controller.go:207-209). -/
def controllerPut {σ μ : Type} (s : σ) (config : μ) (oldRevision : String) :
    σ × String × Option String :=
  (s, "", some errUnsupportedOp)

/-- Embeds `controller.Delete` (controller.go:211-213). -/
def controllerDelete {σ : Type} (s : σ) (typ key : String) : σ × Option String :=
  (s, some errUnsupportedOp)

/-- C5: for every store state and every argument value, `Post`, `Put` and
`Delete` on the ingress (push-watch-backed) store fail with the fixed
`UnsupportedOperation` error, and the store's state is unchanged by the
call. -/
theorem ingress_writes_unsupported {σ μ : Type} (s : σ) (config : μ)
    (oldRevision typ key : String) :
    controllerPost s config = (s, "", some errUnsupportedOp) ∧
    controllerPut s config oldRevision = (s, "", some errUnsupportedOp) ∧
    controllerDelete s typ key = (s, some errUnsupportedOp) :=
  ⟨rfl, rfl, rfl⟩

/-- C9: for every type string other than the ingress-rule type and every
key, `Get` returns the not-found triple (nil message, found=false, empty
revision) without signalling an error, while `List` for the same foreign
type fails with the `UnsupportedOperation` error — the two read paths
treat a foreign type differently. -/
theorem foreign_type_get_not_found_but_list_errors {ρ : Type}
    (decode : String → Except String (String × String))
    (keyFunc : String → String → String)
    (getByKey : String → Except String (Option Ingress))
    (shouldProcess : Ingress → Bool) (convert : Ingress → List (String × ρ))
    (storeList : List Ingress) (typ key : String) (h : typ ≠ ingressRuleType) :
    controllerGet decode keyFunc getByKey shouldProcess convert typ key
      = (none, false, "") ∧
    controllerList storeList shouldProcess convert typ = .error errUnsupportedOp := by
  constructor
  · rw [controllerGet, if_pos h]
  · rw [controllerList, if_pos h]

/-- Witness for C9 at the foreign type "route-rule". -/
theorem foreign_type_get_not_found_but_list_errors_witness :
    controllerGet (fun _ => .error "e") (fun n ns => ns ++ "/" ++ n)
      (fun _ => .ok none) (fun _ => true) (fun _ => ([] : List (String × Nat)))
      "route-rule" "k" = (none, false, "") ∧
    controllerList [] (fun _ => true) (fun _ => ([] : List (String × Nat)))
      "route-rule" = .error errUnsupportedOp :=
  foreign_type_get_not_found_but_list_errors (fun _ => .error "e")
    (fun n ns => ns ++ "/" ++ n) (fun _ => .ok none) (fun _ => true)
    (fun _ => []) [] "route-rule" "k" (by decide)

end Pilot
